import Mathlib

/-!
Shallow embedding of src/NeuralNetwork.py (classes Layer and NeuralNetwork).

The repository imports a `Perceptron` class from Perceptron.py, whose source is
not part of the repository snapshot; the perceptron operations are therefore
modelled from the specification (section 4.1 of spec.md), as noted in their doc
comments. Everything in class Layer and class NeuralNetwork is translated
directly from src/NeuralNetwork.py.

Python floats are modelled as rationals; the activation function and its
derivative-at-output are explicit function parameters (in the source both are
callables bound at construction time). Python exceptions are modelled with
`Except PyErr`: an assert statement that fails yields `PyErr.assertionError`,
indexing outside a list yields `PyErr.indexError`, arithmetic or iteration on
`None` (and `functools.reduce` over an empty iterable) yields
`PyErr.typeError`, `max` or `list.index` over an empty list yields
`PyErr.valueError`, and division by zero yields `PyErr.zeroDivisionError`.
Mutation of objects is modelled by returning the updated object.
-/

/-- Python exception kinds that the translated code can raise. -/
inductive PyErr where
  | assertionError
  | indexError
  | typeError
  | valueError
  | zeroDivisionError
  deriving DecidableEq, Repr

/-- Result of a Python computation: a value or a raised exception. -/
abbrev PyM (α : Type) := Except PyErr α

instance {ε α : Type} [DecidableEq ε] [DecidableEq α] : DecidableEq (Except ε α)
  | .ok a, .ok b => decidable_of_iff (a = b) (by simp)
  | .ok _, .error _ => isFalse (by simp)
  | .error _, .ok _ => isFalse (by simp)
  | .error a, .error b => decidable_of_iff (a = b) (by simp)

/-- Python `int(q)` on a numeric value: truncation toward zero. -/
def pyInt (q : ℚ) : ℤ :=
  if 0 ≤ q then ⌊q⌋ else -⌊-q⌋

/-- Python `l[i]` for a nonnegative index: `IndexError` when out of range. -/
def pyGet {α : Type} (l : List α) (i : ℕ) : PyM α :=
  match l.get? i with
  | some x => .ok x
  | none => .error .indexError

/-- Python `l[i] = v` with an integer index: negative indices wrap by the
length, and an index out of range raises `IndexError`. -/
def pySet (l : List ℚ) (i : ℤ) (v : ℚ) : PyM (List ℚ) :=
  let j : ℤ := if i < 0 then i + l.length else i
  if 0 ≤ j ∧ j < l.length then .ok (l.set j.toNat v) else .error .indexError

/-- Python `max(l)` for a list of numbers: `ValueError` on an empty list. -/
def pyMax : List ℚ → PyM ℚ
  | [] => .error .valueError
  | x :: xs => .ok (xs.foldl max x)

/-- Python `l.index(v)`: position of the first occurrence of `v`, and
`ValueError` when `v` does not occur. -/
def pyIndex (v : ℚ) : List ℚ → PyM ℕ
  | [] => .error .valueError
  | x :: xs => if x = v then .ok 0 else (pyIndex v xs).map (· + 1)

/-- Modelled from the spec: the neuron unit of Perceptron.py, which is not in
the repository snapshot. Per section 3 and section 4.1 of the spec it owns a
mutable weight vector of length `previous_dimension + 1` whose last element is
the bias weight, a learning rate, and transient caches for the last computed
output and the last computed delta. -/
structure Perceptron where
  weights : List ℚ
  lr : ℚ
  output : Option ℚ
  delta : Option ℚ
  deriving DecidableEq, Repr

/-- Modelled from the spec: `compute_output` of the missing Perceptron.py.
Input length must equal `previous_dimension` (a fail-fast contract check);
computes `z` as the bias weight plus the weighted sum of the inputs, applies
the activation function, caches and returns the result. -/
def Perceptron.compute_output (act : ℚ → ℚ) (p : Perceptron) (inputs : List ℚ) :
    PyM (ℚ × Perceptron) :=
  if p.weights.length = inputs.length + 1 then
    let z : ℚ := p.weights.getLastD 0 +
      (List.zipWith (fun w x => w * x) p.weights.dropLast inputs).sum
    let o : ℚ := act z
    .ok (o, { p with output := some o })
  else .error .assertionError

/-- Modelled from the spec: `compute_delta` of the missing Perceptron.py.
Computes `delta` as the downstream signal times the activation derivative
evaluated at the cached output, and stores it; with no cached output the
Python code would operate on `None`. -/
def Perceptron.compute_delta (actDeriv : ℚ → ℚ) (p : Perceptron) (downstream : ℚ) :
    PyM Perceptron :=
  match p.output with
  | some o => .ok { p with delta := some (downstream * actDeriv o) }
  | none => .error .typeError

/-- Modelled from the spec: the derived read-only `weight_delta` vector of the
missing Perceptron.py: element i is `weight_i * delta`, the bias weight
included at the end, so its length is `previous_dimension + 1`. -/
def Perceptron.weight_delta (p : Perceptron) : PyM (List ℚ) :=
  match p.delta with
  | some d => .ok (p.weights.map (fun w => w * d))
  | none => .error .typeError

/-- Modelled from the spec: `update_weight` of the missing Perceptron.py.
Each weight i becomes `weight_i + learning_rate * delta * input_i`, the bias
weight using the implicit constant input 1. -/
def Perceptron.update_weight (p : Perceptron) (inputs : List ℚ) : PyM Perceptron :=
  match p.delta with
  | some d =>
    .ok { p with weights := List.zipWith (fun w x => w + p.lr * d * x) p.weights (inputs ++ [1]) }
  | none => .error .typeError

/-- Modelled from the spec: construction of the missing Perceptron.py: explicit
initial weights when supplied, otherwise externally generated random weights
(the randomness source is an explicit parameter here); caches start empty. -/
def Perceptron.init (lr : ℚ) (w : Option (List ℚ)) (rand : List ℚ) : Perceptron :=
  { weights := w.getD rand, lr := lr, output := none, delta := none }

/-- Layer state from src/NeuralNetwork.py: the stored dimension, the owned
neurons and the cached last forward-pass inputs. -/
structure Layer where
  dimension : ℕ
  neurons : List Perceptron
  inputs : Option (List ℚ)
  deriving DecidableEq, Repr

/-- Layer construction, lines 10 to 34 of src/NeuralNetwork.py: defaulted
weight list, an assert that its length equals the dimension, then one
Perceptron per neuron slot. -/
def Layer.init (lr : ℚ) (dimension : ℕ) (weights : Option (List (Option (List ℚ))))
    (rand : ℕ → List ℚ) : PyM Layer :=
  let ws : List (Option (List ℚ)) := weights.getD (List.replicate dimension none)
  if ws.length = dimension then
    .ok { dimension := dimension,
          neurons := (List.range dimension).map
            (fun i => Perceptron.init lr (ws.getD i none) (rand i)),
          inputs := none }
  else .error .assertionError

/-- Per-neuron loop of `Layer.forward` (line 63 of src/NeuralNetwork.py):
every neuron computes its output on the same inputs. -/
def forwardNeurons (act : ℚ → ℚ) (inputs : List ℚ) :
    List Perceptron → PyM (List ℚ × List Perceptron)
  | [] => .ok ([], [])
  | p :: ps => do
    let (o, pNew) ← p.compute_output act inputs
    let (os, psNew) ← forwardNeurons act inputs ps
    .ok (o :: os, pNew :: psNew)

/-- Layer.forward, lines 54 to 64 of src/NeuralNetwork.py: store the inputs,
let each neuron compute its output, return the outputs in neuron order. -/
def Layer.forward (act : ℚ → ℚ) (l : Layer) (inputs : List ℚ) : PyM (List ℚ × Layer) := do
  let (os, ns) ← forwardNeurons act inputs l.neurons
  .ok (os, { l with inputs := some inputs, neurons := ns })

/-- Per-pair loop of `Layer.backward` (lines 49 to 50 of src/NeuralNetwork.py):
`zip` pairs neurons with downstream values, truncating at the shorter list,
and each neuron computes its delta. -/
def deltaNeurons (actDeriv : ℚ → ℚ) : List Perceptron → List ℚ → PyM (List Perceptron)
  | [], _ => .ok []
  | _ :: _, [] => .ok []
  | p :: ps, d :: ds => do
    let pNew ← p.compute_delta actDeriv d
    let psNew ← deltaNeurons actDeriv ps ds
    .ok (pNew :: psNew)

/-- Gather `weight_delta` of every neuron (line 52 of src/NeuralNetwork.py). -/
def weightDeltas : List Perceptron → PyM (List (List ℚ))
  | [] => .ok []
  | p :: ps => do
    let w ← p.weight_delta
    let ws ← weightDeltas ps
    .ok (w :: ws)

/-- Python `zip`-based elementwise vector sum, the lambda at line 51 of
src/NeuralNetwork.py. -/
def addVec (a b : List ℚ) : List ℚ := List.zipWith (fun x y => x + y) a b

/-- Python `functools.reduce` with no initializer: `TypeError` on an empty
list, otherwise a left fold starting from the first element. -/
def pyReduce (f : List ℚ → List ℚ → List ℚ) : List (List ℚ) → PyM (List ℚ)
  | [] => .error .typeError
  | v :: vs => .ok (vs.foldl f v)

/-- Layer.backward, lines 36 to 52 of src/NeuralNetwork.py: assert that the
downstream length equals the neuron count, let each neuron compute its delta,
then reduce the neurons' weight-delta vectors by elementwise addition. -/
def Layer.backward (actDeriv : ℚ → ℚ) (l : Layer) (downstream : List ℚ) :
    PyM (List ℚ × Layer) :=
  if l.neurons.length = downstream.length then do
    let ns ← deltaNeurons actDeriv l.neurons downstream
    let wds ← weightDeltas ns
    let s ← pyReduce addVec wds
    .ok (s, { l with neurons := ns })
  else .error .assertionError

/-- Per-neuron loop of `Layer.update_weights` (lines 71 to 72 of
src/NeuralNetwork.py). -/
def updateNeurons (ins : List ℚ) : List Perceptron → PyM (List Perceptron)
  | [] => .ok []
  | p :: ps => do
    let pNew ← p.update_weight ins
    let psNew ← updateNeurons ins ps
    .ok (pNew :: psNew)

/-- Layer.update_weights, lines 66 to 72 of src/NeuralNetwork.py: every neuron
updates its weights from the cached inputs; with no cached inputs the Python
code would iterate over `None`. -/
def Layer.update_weights (l : Layer) : PyM Layer :=
  match l.inputs with
  | none => .error .typeError
  | some ins => do
    let ns ← updateNeurons ins l.neurons
    .ok { l with neurons := ns }

/-- Network state from src/NeuralNetwork.py: iteration count, layer count,
label count and the owned layers. -/
structure NeuralNetwork where
  iteration : ℕ
  layer_num : ℕ
  label_count : ℕ
  layers : List Layer
  deriving DecidableEq, Repr

/-- Layer-construction loop of `NeuralNetwork.__init__` (lines 113 to 114 of
src/NeuralNetwork.py): for each position i with pair (c, p) from
`zip(neurons, [input_count] + neurons)`, build `Layer(c, p, activation,
weights[i])`; indexing `weights[i]` can raise `IndexError`. -/
def buildLayers (lr : ℚ) (ws : List (Option (List (Option (List ℚ)))))
    (rand : ℕ → ℕ → List ℚ) : ℕ → List (ℕ × ℕ) → PyM (List Layer)
  | _, [] => .ok []
  | i, (c, _p) :: rest => do
    let w ← pyGet ws i
    let layer ← Layer.init lr c w (rand i)
    let ls ← buildLayers lr ws rand (i + 1) rest
    .ok (layer :: ls)

/-- NeuralNetwork.__init__, lines 76 to 116 of src/NeuralNetwork.py. The
caller-supplied `neurons` list is mutated in place by `neurons.append(
label_count)` before the length assert; the first component of the result is
that list's final state, the second the construction outcome. The random
weight source is an explicit parameter. -/
def NeuralNetwork.init (iteration input_count label_count hidden_layers : ℕ)
    (neurons : List ℕ) (lr : ℚ)
    (weights : Option (List (Option (List (Option (List ℚ))))))
    (rand : ℕ → ℕ → List ℚ) : List ℕ × PyM NeuralNetwork :=
  let layer_num := hidden_layers + 1
  let ns := neurons ++ [label_count]
  (ns,
    if ns.length = layer_num then do
      let ws := weights.getD (List.replicate layer_num none)
      let ls ← buildLayers lr ws rand 0 (List.zip ns (input_count :: ns))
      .ok { iteration := iteration, layer_num := layer_num,
            label_count := label_count, layers := ls }
    else .error .assertionError)

/-- Forward loop of lines 139 to 140 and 161 to 162 of src/NeuralNetwork.py:
feed each layer's output to the next layer, collecting the updated layers. -/
def forwardLayers (act : ℚ → ℚ) : List Layer → List ℚ → PyM (List ℚ × List Layer)
  | [], ins => .ok (ins, [])
  | l :: ls, ins => do
    let (os, lNew) ← l.forward act ins
    let (finalOuts, lsNew) ← forwardLayers act ls os
    .ok (finalOuts, lNew :: lsNew)

/-- Backward loop of lines 149 to 150 of src/NeuralNetwork.py, applied to the
reversed layer list: each layer's backward return value is passed unchanged as
the next processed layer's downstream. -/
def backwardLayers (actDeriv : ℚ → ℚ) : List Layer → List ℚ → PyM (List ℚ × List Layer)
  | [], ds => .ok (ds, [])
  | l :: ls, ds => do
    let (dsNew, lNew) ← l.backward actDeriv ds
    let (finalDs, lsNew) ← backwardLayers actDeriv ls dsNew
    .ok (finalDs, lNew :: lsNew)

/-- Update loop of lines 153 to 154 of src/NeuralNetwork.py. -/
def updateLayers : List Layer → PyM (List Layer)
  | [] => .ok []
  | l :: ls => do
    let lNew ← l.update_weights
    let lsNew ← updateLayers ls
    .ok (lNew :: lsNew)

/-- One-hot label construction of lines 127 to 130 of src/NeuralNetwork.py:
a zero list of length `label_count` with position `label` set to 1, with
Python indexing semantics. -/
def mkLabels (label_count : ℕ) (label : ℤ) : PyM (List ℚ) :=
  pySet (List.replicate label_count 0) label 1

/-- Error seeding of line 144 of src/NeuralNetwork.py: elementwise
`target - output`, `zip` truncating at the shorter list. -/
def seedDownstream (labels outs : List ℚ) : List ℚ :=
  List.zipWith (fun t o => t - o) labels outs

/-- Backward-then-update phase of `train_instance`, lines 149 to 154 of
src/NeuralNetwork.py: feed the seed through the reversed layer list, restore
layer order, then update every layer's weights. -/
def NeuralNetwork.back_update (actDeriv : ℚ → ℚ) (net : NeuralNetwork)
    (seed : List ℚ) : PyM NeuralNetwork := do
  let (_, lsRev) ← backwardLayers actDeriv net.layers.reverse seed
  let ls ← updateLayers lsRev.reverse
  .ok { net with layers := ls }

/-- NeuralNetwork.train_instance, lines 118 to 154 of src/NeuralNetwork.py:
extract the label from the instance's last element, build the one-hot label
vector, run the forward pass on the remaining elements, seed the downstream
as target minus output, run the backward pass in reverse layer order, then
update all weights. -/
def NeuralNetwork.train_instance (act actDeriv : ℚ → ℚ) (net : NeuralNetwork)
    (inst : List ℚ) : PyM NeuralNetwork :=
  match inst.getLast? with
  | none => .error .indexError
  | some lastv => do
    let label := pyInt lastv
    let labels ← mkLabels net.label_count label
    let (outs, ls1) ← forwardLayers act net.layers inst.dropLast
    let seed := seedDownstream labels outs
    NeuralNetwork.back_update actDeriv { net with layers := ls1 } seed

/-- NeuralNetwork.test_instance, lines 156 to 164 of src/NeuralNetwork.py:
forward pass only, then compare the label with the index of the first maximal
output. -/
def NeuralNetwork.test_instance (act : ℚ → ℚ) (net : NeuralNetwork) (inst : List ℚ) :
    PyM (Bool × NeuralNetwork) :=
  match inst.getLast? with
  | none => .error .indexError
  | some lastv => do
    let label := pyInt lastv
    let (outs, ls) ← forwardLayers act net.layers inst.dropLast
    let m ← pyMax outs
    let idx ← pyIndex m outs
    .ok (decide (label = (idx : ℤ)), { net with layers := ls })

/-- Inner per-instance loop of `NeuralNetwork.train` (lines 168 to 169 of
src/NeuralNetwork.py): one full pass over the dataset in order. -/
def trainPass (act actDeriv : ℚ → ℚ) : List (List ℚ) → NeuralNetwork → PyM NeuralNetwork
  | [], net => .ok net
  | i :: is, net => do
    let netNew ← net.train_instance act actDeriv i
    trainPass act actDeriv is netNew

/-- Outer iteration loop of `NeuralNetwork.train` (line 167 of
src/NeuralNetwork.py). -/
def trainLoop (act actDeriv : ℚ → ℚ) (insts : List (List ℚ)) :
    ℕ → NeuralNetwork → PyM NeuralNetwork
  | 0, net => .ok net
  | n + 1, net => do
    let netNew ← trainPass act actDeriv insts net
    trainLoop act actDeriv insts n netNew

/-- NeuralNetwork.train, lines 166 to 169 of src/NeuralNetwork.py: the full
per-instance procedure over every instance in dataset order, repeated for the
configured number of iterations. -/
def NeuralNetwork.train (act actDeriv : ℚ → ℚ) (net : NeuralNetwork)
    (insts : List (List ℚ)) : PyM NeuralNetwork :=
  trainLoop act actDeriv insts net.iteration net

/-- Counting loop of `NeuralNetwork.test` (lines 172 to 175 of
src/NeuralNetwork.py), threading the network state through the calls. -/
def testFold (act : ℚ → ℚ) : List (List ℚ) → ℕ → NeuralNetwork → PyM (ℕ × NeuralNetwork)
  | [], pos, net => .ok (pos, net)
  | i :: is, pos, net => do
    let (b, netNew) ← net.test_instance act i
    testFold act is (if b then pos + 1 else pos) netNew

/-- NeuralNetwork.test, lines 171 to 176 of src/NeuralNetwork.py: count the
instances on which `test_instance` is true, then divide by the number of
instances; an empty collection raises `ZeroDivisionError` at the division. -/
def NeuralNetwork.test (act : ℚ → ℚ) (net : NeuralNetwork) (insts : List (List ℚ)) :
    PyM (ℚ × NeuralNetwork) := do
  let (pos, netNew) ← testFold act insts 0 net
  if insts.length = 0 then .error .zeroDivisionError
  else .ok ((pos : ℚ) / insts.length, netNew)

/-! Derived notions used to state the properties. -/

/-- Erase a neuron's transient output cache, keeping weights, learning rate
and delta. Two perceptrons are equal up to the forward-pass cache exactly when
their `clearCache` images are equal. -/
def Perceptron.clearCache (p : Perceptron) : Perceptron := { p with output := none }

/-- Erase a layer's transient forward-pass caches: the stored last inputs and
every neuron's cached output. -/
def Layer.clearCache (l : Layer) : Layer :=
  { l with neurons := l.neurons.map Perceptron.clearCache, inputs := none }

/-- Erase all transient forward-pass caches of a network. -/
def NeuralNetwork.clearCache (net : NeuralNetwork) : NeuralNetwork :=
  { net with layers := net.layers.map Layer.clearCache }

/-- All weight vectors of a network, layer by layer and neuron by neuron. -/
def NeuralNetwork.weightsOf (net : NeuralNetwork) : List (List (List ℚ)) :=
  net.layers.map (fun l => l.neurons.map Perceptron.weights)

/-- Value of a neuron's `weight_delta` vector once its delta is set. -/
def weightDeltaVec (p : Perceptron) : List ℚ :=
  p.weights.map (fun w => w * p.delta.getD 0)

/-- Elementwise sum of a list of vectors of common length `len`. -/
def vecSum (len : ℕ) (vs : List (List ℚ)) : List ℚ :=
  vs.foldl addVec (List.replicate len 0)

/-- Whether `test_instance` succeeds on an instance and returns `true`. -/
def instOk (act : ℚ → ℚ) (net : NeuralNetwork) (i : List ℚ) : Bool :=
  match net.test_instance act i with
  | .ok (b, _) => b
  | _ => false

/-- Number of instances of a dataset on which `test_instance` returns true. -/
def countTrue (act : ℚ → ℚ) (net : NeuralNetwork) (insts : List (List ℚ)) : ℕ :=
  (insts.filter (instOk act net)).length

/-! Concrete data for witnesses and counterexamples: the identity as
activation with constant derivative 1, and small networks with explicit
weights. -/

/-- Identity activation. -/
def idAct : ℚ → ℚ := fun x => x

/-- Constant derivative for the identity activation. -/
def oneDeriv : ℚ → ℚ := fun _ => 1

/-- Perceptron with given weights, learning rate 1/10 and empty caches. -/
def pw (ws : List ℚ) : Perceptron :=
  { weights := ws, lr := 1/10, output := none, delta := none }

/-- Perceptron with given weights and a cached output value. -/
def pwo (ws : List ℚ) (o : ℚ) : Perceptron :=
  { weights := ws, lr := 1/10, output := some o, delta := none }

/-- Two-layer network (one hidden layer plus the output layer), every layer a
single neuron with one input: the smallest topology reaching the backward loop
hand-off between layers. -/
def netBug : NeuralNetwork :=
  { iteration := 1, layer_num := 2, label_count := 1,
    layers := [{ dimension := 1, neurons := [pw [1, 0]], inputs := none },
               { dimension := 1, neurons := [pw [1, 0]], inputs := none }] }

/-- Single-layer network with one input feature and two labels. -/
def net1 : NeuralNetwork :=
  { iteration := 0, layer_num := 1, label_count := 2,
    layers := [{ dimension := 2, neurons := [pw [1, 0], pw [0, 0]], inputs := none }] }

/-- State of `net1` after a forward pass on the single feature value 1. -/
def net1After : NeuralNetwork :=
  { iteration := 0, layer_num := 1, label_count := 2,
    layers := [{ dimension := 2, neurons := [pwo [1, 0] 1, pwo [0, 0] 0],
                 inputs := some [1] }] }

/-- Single-layer network whose two neurons always produce equal outputs. -/
def netTie : NeuralNetwork :=
  { iteration := 0, layer_num := 1, label_count := 2,
    layers := [{ dimension := 2, neurons := [pw [0, 0], pw [0, 0]], inputs := none }] }

/-- Layer state of `netTie` after a forward pass on the feature value 5. -/
def netTieLayers : List Layer :=
  [{ dimension := 2, neurons := [pwo [0, 0] 0, pwo [0, 0] 0], inputs := some [5] }]

/-- Layer of two neurons with three weights each and cached outputs. -/
def layerW : Layer :=
  { dimension := 2, neurons := [pwo [1, 2, 3] 2, pwo [4, 5, 6] 3], inputs := none }

/-- Constant stand-in for the random weight source. -/
def frand : ℕ → ℕ → List ℚ := fun _ _ => [0]

/-! Basic facts about the exception monad. -/

@[simp] theorem ok_bind {α β : Type} (a : α) (f : α → PyM β) :
    (Except.ok a >>= f) = f a := rfl

@[simp] theorem error_bind {α β : Type} (e : PyErr) (f : α → PyM β) :
    ((Except.error e : PyM α) >>= f) = Except.error e := rfl

theorem pym_bind_ok {α : Type} (r : PyM α) : (r >>= fun a => Except.ok a) = r := by
  cases r <;> rfl

theorem pym_bind_assoc {α β γ : Type} (r : PyM α) (f : α → PyM β) (g : β → PyM γ) :
    ((r >>= f) >>= g) = r >>= fun a => (f a >>= g) := by
  cases r <;> rfl

/-! Error classification for the per-neuron loops of Layer.backward: the only
exception these loops themselves can raise is a TypeError, never an
AssertionError. -/

theorem compute_delta_err {actDeriv : ℚ → ℚ} {p : Perceptron} {d : ℚ} {e : PyErr}
    (h : p.compute_delta actDeriv d = .error e) : e = .typeError := by
  unfold Perceptron.compute_delta at h
  cases hp : p.output with
  | none => rw [hp] at h; injection h with h2; exact h2.symm
  | some o => rw [hp] at h; cases h

theorem deltaNeurons_err {actDeriv : ℚ → ℚ} :
    ∀ {ns : List Perceptron} {ds : List ℚ} {e : PyErr},
      deltaNeurons actDeriv ns ds = .error e → e = .typeError := by
  intro ns
  induction ns with
  | nil => intro ds e h; cases h
  | cons p ps ih =>
    intro ds e h
    cases ds with
    | nil => cases h
    | cons d ds =>
      rw [deltaNeurons] at h
      cases hc : p.compute_delta actDeriv d with
      | error e2 =>
        rw [hc] at h
        simp only [error_bind, Except.error.injEq] at h
        exact h ▸ compute_delta_err hc
      | ok pNew =>
        rw [hc] at h
        simp only [ok_bind] at h
        cases hr : deltaNeurons actDeriv ps ds with
        | error e2 =>
          rw [hr] at h
          simp only [error_bind, Except.error.injEq] at h
          exact h ▸ ih hr
        | ok psNew => rw [hr] at h; cases h

theorem weight_delta_err {p : Perceptron} {e : PyErr}
    (h : p.weight_delta = .error e) : e = .typeError := by
  unfold Perceptron.weight_delta at h
  cases hp : p.delta with
  | none => rw [hp] at h; injection h with h2; exact h2.symm
  | some d => rw [hp] at h; cases h

theorem weightDeltas_err :
    ∀ {ns : List Perceptron} {e : PyErr}, weightDeltas ns = .error e → e = .typeError := by
  intro ns
  induction ns with
  | nil => intro e h; cases h
  | cons p ps ih =>
    intro e h
    rw [weightDeltas] at h
    cases hw : p.weight_delta with
    | error e2 =>
      rw [hw] at h
      simp only [error_bind, Except.error.injEq] at h
      exact h ▸ weight_delta_err hw
    | ok w =>
      rw [hw] at h
      simp only [ok_bind] at h
      cases hr : weightDeltas ps with
      | error e2 =>
        rw [hr] at h
        simp only [error_bind, Except.error.injEq] at h
        exact h ▸ ih hr
      | ok ws => rw [hr] at h; cases h

theorem pyReduce_err {f : List ℚ → List ℚ → List ℚ} {vs : List (List ℚ)} {e : PyErr}
    (h : pyReduce f vs = .error e) : e = .typeError := by
  cases vs with
  | nil => injection h with h2; exact h2.symm
  | cons v vs => cases h

/-! Successful runs of the per-neuron loops of Layer.backward. -/

theorem deltaNeurons_ok (actDeriv : ℚ → ℚ) :
    ∀ (ns : List Perceptron) (ds : List ℚ), (∀ p ∈ ns, p.output.isSome) →
      deltaNeurons actDeriv ns ds = .ok (List.zipWith
        (fun p d => { p with delta := some (d * actDeriv (p.output.getD 0)) }) ns ds) := by
  intro ns
  induction ns with
  | nil => intro ds _; cases ds <;> rfl
  | cons p ps ih =>
    intro ds h
    cases ds with
    | nil => rfl
    | cons d ds =>
      obtain ⟨o, ho⟩ := Option.isSome_iff_exists.mp (h p (List.mem_cons_self p ps))
      have ih2 := ih ds (fun q hq => h q (List.mem_cons_of_mem p hq))
      simp only [deltaNeurons, Perceptron.compute_delta, ho, ok_bind, ih2,
        List.zipWith_cons_cons, Option.getD_some]

theorem weightDeltas_ok :
    ∀ (ns : List Perceptron), (∀ p ∈ ns, p.delta.isSome) →
      weightDeltas ns = .ok (ns.map weightDeltaVec) := by
  intro ns
  induction ns with
  | nil => intro _; rfl
  | cons p ps ih =>
    intro h
    obtain ⟨d, hd⟩ := Option.isSome_iff_exists.mp (h p (List.mem_cons_self p ps))
    have ih2 := ih (fun q hq => h q (List.mem_cons_of_mem p hq))
    simp only [weightDeltas, Perceptron.weight_delta, hd, ok_bind, ih2, List.map_cons,
      weightDeltaVec, Option.getD_some]

/-! Elementwise vector sums. -/

theorem addVec_length (a b : List ℚ) : (addVec a b).length = min a.length b.length :=
  List.length_zipWith _ _ _

theorem addVec_getD :
    ∀ (a b : List ℚ), a.length = b.length → ∀ (j : ℕ),
      (addVec a b).getD j 0 = a.getD j 0 + b.getD j 0 := by
  intro a
  induction a with
  | nil =>
    intro b h j
    cases b with
    | nil => simp [addVec]
    | cons y ys => cases h
  | cons x xs ih =>
    intro b h j
    cases b with
    | nil => cases h
    | cons y ys =>
      cases j with
      | zero => simp [addVec]
      | succ k =>
        have h2 : xs.length = ys.length := by
          simpa using h
        simpa [addVec] using ih ys h2 k

theorem addVec_replicate_zero : ∀ (v : List ℚ), addVec (List.replicate v.length 0) v = v := by
  intro v
  induction v with
  | nil => rfl
  | cons x xs ih =>
    simp only [List.length_cons, List.replicate, addVec, List.zipWith_cons_cons, zero_add]
    exact congrArg (x :: ·) ih

theorem replicate_getD (n j : ℕ) : (List.replicate n (0 : ℚ)).getD j 0 = 0 := by
  induction n generalizing j with
  | zero => rfl
  | succ m ih =>
    cases j with
    | zero => rfl
    | succ k => exact ih k

theorem foldl_addVec_length :
    ∀ (vs : List (List ℚ)) (acc : List ℚ), (∀ v ∈ vs, v.length = acc.length) →
      (vs.foldl addVec acc).length = acc.length := by
  intro vs
  induction vs with
  | nil => intro acc _; rfl
  | cons v vs ih =>
    intro acc h
    have hv : v.length = acc.length := h v (List.mem_cons_self v vs)
    have hlen : (addVec acc v).length = acc.length := by
      rw [addVec_length, hv, min_self]
    have h2 : ∀ w ∈ vs, w.length = (addVec acc v).length := by
      intro w hw; rw [hlen]; exact h w (List.mem_cons_of_mem v hw)
    calc ((v :: vs).foldl addVec acc).length = (vs.foldl addVec (addVec acc v)).length := rfl
      _ = (addVec acc v).length := ih (addVec acc v) h2
      _ = acc.length := hlen

theorem foldl_addVec_getD :
    ∀ (vs : List (List ℚ)) (acc : List ℚ), (∀ v ∈ vs, v.length = acc.length) → ∀ (j : ℕ),
      (vs.foldl addVec acc).getD j 0 = acc.getD j 0 + (vs.map (fun v => v.getD j 0)).sum := by
  intro vs
  induction vs with
  | nil => intro acc _ j; simp
  | cons v vs ih =>
    intro acc h j
    have hv : v.length = acc.length := h v (List.mem_cons_self v vs)
    have hlen : (addVec acc v).length = acc.length := by
      rw [addVec_length, hv, min_self]
    have h2 : ∀ w ∈ vs, w.length = (addVec acc v).length := by
      intro w hw; rw [hlen]; exact h w (List.mem_cons_of_mem v hw)
    calc ((v :: vs).foldl addVec acc).getD j 0
        = (vs.foldl addVec (addVec acc v)).getD j 0 := rfl
      _ = (addVec acc v).getD j 0 + (vs.map (fun w => w.getD j 0)).sum := ih _ h2 j
      _ = acc.getD j 0 + v.getD j 0 + (vs.map (fun w => w.getD j 0)).sum := by
            rw [addVec_getD acc v hv.symm j]
      _ = acc.getD j 0 + ((v :: vs).map (fun w => w.getD j 0)).sum := by
            simp [add_assoc]

theorem vecSum_length (L : ℕ) (vs : List (List ℚ)) (h : ∀ v ∈ vs, v.length = L) :
    (vecSum L vs).length = L := by
  have h2 := foldl_addVec_length vs (List.replicate L 0) (by simpa using h)
  simpa [vecSum] using h2

theorem vecSum_getD (L : ℕ) (vs : List (List ℚ)) (h : ∀ v ∈ vs, v.length = L) (j : ℕ) :
    (vecSum L vs).getD j 0 = (vs.map (fun v => v.getD j 0)).sum := by
  have h2 := foldl_addVec_getD vs (List.replicate L 0) (by simpa using h) j
  simpa [vecSum, replicate_getD] using h2

theorem pyReduce_eq_vecSum (L : ℕ) (v : List ℚ) (vs : List (List ℚ))
    (hv : v.length = L) (hvs : ∀ w ∈ vs, w.length = L) :
    pyReduce addVec (v :: vs) = .ok (vecSum L (v :: vs)) := by
  subst hv
  rw [pyReduce, vecSum]
  rw [show (v :: vs).foldl addVec (List.replicate v.length 0)
      = vs.foldl addVec (addVec (List.replicate v.length 0) v) from rfl]
  rw [addVec_replicate_zero]

/-- Members of a zipWith come from members of the two lists. -/
theorem mem_zipWith {α β γ : Type} (f : α → β → γ) :
    ∀ {as : List α} {bs : List β} {c : γ}, c ∈ List.zipWith f as bs →
      ∃ a b, a ∈ as ∧ b ∈ bs ∧ c = f a b := by
  intro as
  induction as with
  | nil => intro bs c h; cases h
  | cons a as ih =>
    intro bs c h
    cases bs with
    | nil => cases h
    | cons b bs =>
      rw [List.zipWith_cons_cons] at h
      rcases List.mem_cons.mp h with h1 | h2
      · exact ⟨a, b, List.mem_cons_self a as, List.mem_cons_self b bs, h1⟩
      · obtain ⟨x, y, hx, hy, hc⟩ := ih h2
        exact ⟨x, y, List.mem_cons_of_mem a hx, List.mem_cons_of_mem b hy, hc⟩

theorem getD_map_mul (ws : List ℚ) (c : ℚ) :
    ∀ (j : ℕ), j < ws.length → (ws.map (fun w => w * c)).getD j 0 = ws.getD j 0 * c := by
  induction ws with
  | nil => intro j h; cases h
  | cons w ws ih =>
    intro j h
    cases j with
    | zero => rfl
    | succ k => simpa using ih k (by simpa using h)

/-- C7: Layer.backward fails by assertion exactly when the length of the
supplied downstream vector differs from the layer's neuron count; under the
precondition that the lengths match, the assertion never fires (whatever else
may go wrong is never an AssertionError). -/
theorem claim_C7_backward_assert (actDeriv : ℚ → ℚ) (l : Layer) (downstream : List ℚ) :
    (l.neurons.length ≠ downstream.length →
      l.backward actDeriv downstream = .error .assertionError)
    ∧ (l.neurons.length = downstream.length →
      l.backward actDeriv downstream ≠ .error .assertionError) := by
  constructor
  · intro h
    rw [Layer.backward, if_neg h]
  · intro h hcontra
    rw [Layer.backward, if_pos h] at hcontra
    cases hd : deltaNeurons actDeriv l.neurons downstream with
    | error e =>
      rw [hd, error_bind] at hcontra
      injection hcontra with h2
      rw [h2] at hd
      exact PyErr.noConfusion (deltaNeurons_err hd)
    | ok ns =>
      rw [hd, ok_bind] at hcontra
      cases hw : weightDeltas ns with
      | error e =>
        rw [hw, error_bind] at hcontra
        injection hcontra with h2
        rw [h2] at hw
        exact PyErr.noConfusion (weightDeltas_err hw)
      | ok wds =>
        rw [hw, ok_bind] at hcontra
        cases hr : pyReduce addVec wds with
        | error e =>
          rw [hr, error_bind] at hcontra
          injection hcontra with h2
          rw [h2] at hr
          exact PyErr.noConfusion (pyReduce_err hr)
        | ok s =>
          rw [hr, ok_bind] at hcontra
          exact Except.noConfusion hcontra

/-- C7 witness: on a concrete layer of two neurons, an empty downstream vector
fires the assertion and a downstream vector of matching length does not. -/
theorem claim_C7_backward_assert_witness :
    Layer.backward oneDeriv layerW [] = .error .assertionError
    ∧ Layer.backward oneDeriv layerW [1, 1] ≠ .error .assertionError :=
  ⟨(claim_C7_backward_assert oneDeriv layerW []).1 (by decide),
   (claim_C7_backward_assert oneDeriv layerW [1, 1]).2 (by decide)⟩

/-- C2: for a downstream vector whose length equals the (nonzero) neuron
count, with every neuron holding a cached output and weight vectors of common
length, Layer.backward invokes compute_delta on each neuron with its
corresponding downstream value in neuron order, and returns the element-wise
sum across all neurons of the neurons' weight_delta vectors. -/
theorem claim_C2_backward_sum (actDeriv : ℚ → ℚ) (l : Layer) (downstream : List ℚ) (L : ℕ)
    (hlen : l.neurons.length = downstream.length)
    (hne : l.neurons ≠ [])
    (hout : ∀ p ∈ l.neurons, p.output.isSome)
    (hW : ∀ p ∈ l.neurons, p.weights.length = L) :
    ∃ ns s,
      deltaNeurons actDeriv l.neurons downstream = .ok ns
      ∧ ns = List.zipWith
          (fun p d => { p with delta := some (d * actDeriv (p.output.getD 0)) })
          l.neurons downstream
      ∧ l.backward actDeriv downstream = .ok (s, { l with neurons := ns })
      ∧ s.length = L
      ∧ ∀ j, j < L →
          s.getD j 0 = (ns.map (fun p => p.weights.getD j 0 * p.delta.getD 0)).sum := by
  have hd := deltaNeurons_ok actDeriv l.neurons downstream hout
  set f : Perceptron → ℚ → Perceptron :=
    fun p d => { p with delta := some (d * actDeriv (p.output.getD 0)) } with hf
  set ns : List Perceptron := List.zipWith f l.neurons downstream with hns
  have hmem : ∀ q ∈ ns, ∃ p, p ∈ l.neurons ∧ q.weights = p.weights ∧ q.delta.isSome := by
    intro q hq
    obtain ⟨p, d, hp, _, hqf⟩ := mem_zipWith f hq
    exact ⟨p, hp, by rw [hqf], by rw [hqf]; rfl⟩
  have hdelta : ∀ q ∈ ns, q.delta.isSome := fun q hq => (hmem q hq).choose_spec.2.2
  have hwds := weightDeltas_ok ns hdelta
  have hWns : ∀ q ∈ ns, q.weights.length = L := by
    intro q hq
    obtain ⟨p, hp, hqw, _⟩ := hmem q hq
    rw [hqw]; exact hW p hp
  have hvlen : ∀ v ∈ ns.map weightDeltaVec, v.length = L := by
    intro v hv
    obtain ⟨q, hq, hqv⟩ := List.mem_map.mp hv
    rw [← hqv, weightDeltaVec, List.length_map]
    exact hWns q hq
  have hnsne : ns ≠ [] := by
    cases hx : l.neurons with
    | nil => exact absurd hx hne
    | cons p ps =>
      cases hy : downstream with
      | nil => rw [hx, hy] at hlen; cases hlen
      | cons d ds =>
        rw [hns, hx, hy, List.zipWith_cons_cons]
        intro hcon
        cases hcon
  obtain ⟨v, vs, hvvs⟩ : ∃ v vs, ns.map weightDeltaVec = v :: vs := by
    cases hz : ns.map weightDeltaVec with
    | nil =>
      rcases List.map_eq_nil_iff.mp hz with hnil
      exact absurd hnil hnsne
    | cons v vs => exact ⟨v, vs, rfl⟩
  have hred : pyReduce addVec (ns.map weightDeltaVec) = .ok (vecSum L (ns.map weightDeltaVec)) := by
    rw [hvvs]
    refine pyReduce_eq_vecSum L v vs ?_ ?_
    · exact hvlen v (by rw [hvvs]; exact List.mem_cons_self v vs)
    · intro w hw; exact hvlen w (by rw [hvvs]; exact List.mem_cons_of_mem v hw)
  refine ⟨ns, vecSum L (ns.map weightDeltaVec), hd, rfl, ?_, vecSum_length L _ hvlen, ?_⟩
  · rw [Layer.backward, if_pos hlen, hd, ok_bind, hwds, ok_bind, hred, ok_bind]
  · intro j hj
    rw [vecSum_getD L _ hvlen j, List.map_map]
    refine congrArg List.sum (List.map_congr_left ?_)
    intro q hq
    have hlq : j < q.weights.length := by rw [hWns q hq]; exact hj
    simp only [Function.comp, weightDeltaVec]
    exact getD_map_mul q.weights (q.delta.getD 0) j hlq

/-- C2 witness: the concrete two-neuron layer with cached outputs 2 and 3,
weight vectors of length 3, and downstream vector with both entries 1. -/
theorem claim_C2_backward_sum_witness :
    ∃ ns s,
      deltaNeurons oneDeriv layerW.neurons [1, 1] = .ok ns
      ∧ ns = List.zipWith
          (fun p d => { p with delta := some (d * oneDeriv (p.output.getD 0)) })
          layerW.neurons [1, 1]
      ∧ layerW.backward oneDeriv [1, 1] = .ok (s, { layerW with neurons := ns })
      ∧ s.length = 3
      ∧ ∀ j, j < 3 →
          s.getD j 0 = (ns.map (fun p => p.weights.getD j 0 * p.delta.getD 0)).sum :=
  claim_C2_backward_sum oneDeriv layerW [1, 1] 3 (by decide) (by decide)
    (by decide) (by decide)

/-- C1: on a concrete two-layer network the backward phase of train_instance
raises an AssertionError: the output layer's backward return value (of length
previous_dimension + 1, the bias slot included) is passed unchanged to the
hidden layer, whose neuron-count assert then fires. The network never drops
the final bias-weight element. -/
theorem claim_C1_no_bias_drop :
    netBug.train_instance idAct oneDeriv [0, 0] = .error .assertionError := by
  decide

/-- Replicate lists give their element at every position in range. -/
theorem replicate_get? {α : Type} (a : α) :
    ∀ (n i : ℕ), i < n → (List.replicate n a).get? i = some a := by
  intro n
  induction n with
  | zero => intro i h; cases h
  | succ m ih =>
    intro i h
    cases i with
    | zero => rfl
    | succ k => exact ih k (Nat.lt_of_succ_lt_succ h)

/-- With defaulted (random) weights, the layer-construction loop always
succeeds as long as the weight-list index stays in range. -/
theorem buildLayers_replicate_ok (lr : ℚ) (rand : ℕ → ℕ → List ℚ) (n : ℕ) :
    ∀ (pairs : List (ℕ × ℕ)) (start : ℕ), start + pairs.length ≤ n →
      ∃ ls, buildLayers lr (List.replicate n none) rand start pairs = .ok ls := by
  intro pairs
  induction pairs with
  | nil => intro start _; exact ⟨[], rfl⟩
  | cons cp rest ih =>
    intro start h
    obtain ⟨c, p⟩ := cp
    simp only [List.length_cons] at h
    have hstart : start < n := by omega
    have hget : pyGet (List.replicate n (none : Option (List (Option (List ℚ))))) start = .ok none := by
      rw [pyGet, replicate_get? _ n start hstart]
    have hlayer : Layer.init lr c none (rand start) = .ok
        { dimension := c,
          neurons := (List.range c).map
            (fun i => Perceptron.init lr ((List.replicate c (none : Option (List ℚ))).getD i none) (rand start i)),
          inputs := none } := by
      rw [Layer.init]
      simp [List.length_replicate]
    obtain ⟨ls, hls⟩ := ih (start + 1) (by omega)
    simp only [buildLayers, hget, ok_bind, hlayer, hls]
    exact ⟨_, rfl⟩

/-- Unfolding of the second component of network construction. -/
theorem init_snd (it ic lc hl : ℕ) (ns : List ℕ) (lr : ℚ)
    (w : Option (List (Option (List (Option (List ℚ)))))) (rand : ℕ → ℕ → List ℚ) :
    (NeuralNetwork.init it ic lc hl ns lr w rand).2 =
      (if (ns ++ [lc]).length = hl + 1 then do
          let ls ← buildLayers lr (w.getD (List.replicate (hl + 1) none)) rand 0
            (List.zip (ns ++ [lc]) (ic :: (ns ++ [lc])))
          Except.ok { iteration := it, layer_num := hl + 1, label_count := lc, layers := ls }
        else .error .assertionError) := rfl

/-- With defaulted weights, construction succeeds whenever the post-append
length check passes. -/
theorem init_ok_of_length (it ic lc hl : ℕ) (neurons : List ℕ) (lr : ℚ)
    (rand : ℕ → ℕ → List ℚ) (h : (neurons ++ [lc]).length = hl + 1) :
    ∃ net, (NeuralNetwork.init it ic lc hl neurons lr none rand).2 = .ok net := by
  have hpairs : (List.zip (neurons ++ [lc]) (ic :: (neurons ++ [lc]))).length = hl + 1 := by
    rw [List.length_zip, h, List.length_cons, h]
    omega
  obtain ⟨ls, hls⟩ := buildLayers_replicate_ok lr rand (hl + 1)
    (List.zip (neurons ++ [lc]) (ic :: (neurons ++ [lc]))) 0 (by omega)
  rw [init_snd, if_pos h]
  simp only [Option.getD_none]
  rw [hls, ok_bind]
  exact ⟨_, rfl⟩

/-- C3: network construction appends label_count to the caller-supplied
hidden-width list before validating it (the first component of the result is
the caller's mutated list), fails by assertion exactly when the post-append
length differs from hidden_layers + 1, and a construction that reuses the
mutated list with one more hidden layer passes the length check again. -/
theorem claim_C3_init_mutate_check (it ic lc hl : ℕ) (neurons : List ℕ) (lr : ℚ)
    (rand : ℕ → ℕ → List ℚ) :
    (NeuralNetwork.init it ic lc hl neurons lr none rand).1 = neurons ++ [lc]
    ∧ ((NeuralNetwork.init it ic lc hl neurons lr none rand).2 = .error .assertionError
        ↔ (neurons ++ [lc]).length ≠ hl + 1)
    ∧ (neurons.length = hl →
        ∀ it2 ic2 lr2 rand2,
          (NeuralNetwork.init it2 ic2 lc (hl + 1)
            ((NeuralNetwork.init it ic lc hl neurons lr none rand).1) lr2 none rand2).2
            ≠ .error .assertionError) := by
  refine ⟨rfl, ?_, ?_⟩
  · constructor
    · intro herr hlen
      obtain ⟨net, hnet⟩ := init_ok_of_length it ic lc hl neurons lr rand hlen
      rw [hnet] at herr
      exact Except.noConfusion herr
    · intro hlen
      rw [init_snd, if_neg hlen]
  · intro hlenn it2 ic2 lr2 rand2
    have hlen2 : ((neurons ++ [lc]) ++ [lc]).length = (hl + 1) + 1 := by
      simp [hlenn]
    obtain ⟨net, hnet⟩ := init_ok_of_length it2 ic2 lc (hl + 1) (neurons ++ [lc]) lr2 rand2 hlen2
    intro hcontra
    rw [show (NeuralNetwork.init it ic lc hl neurons lr none rand).1 = neurons ++ [lc] from rfl] at hcontra
    rw [hnet] at hcontra
    exact Except.noConfusion hcontra

/-- C3 witness: constructing with widths [3], one hidden layer and two labels
mutates the list to [3, 2] and passes the check; the same call with a
mismatched hidden-layer count fails by assertion; reusing the mutated list
with two hidden layers passes the check again. -/
theorem claim_C3_init_mutate_check_witness :
    (NeuralNetwork.init 5 1 2 1 [3] (1/10) none frand).1 = [3] ++ [2]
    ∧ ((NeuralNetwork.init 5 1 2 0 [3] (1/10) none frand).2 = .error .assertionError
        ↔ ([3] ++ [2]).length ≠ 0 + 1)
    ∧ (NeuralNetwork.init 7 9 2 2 ((NeuralNetwork.init 5 1 2 1 [3] (1/10) none frand).1)
        (1/5) none frand).2 ≠ .error .assertionError :=
  ⟨(claim_C3_init_mutate_check 5 1 2 1 [3] (1/10) frand).1,
   (claim_C3_init_mutate_check 5 1 2 0 [3] (1/10) frand).2.1,
   (claim_C3_init_mutate_check 5 1 2 1 [3] (1/10) frand).2.2 (by decide) 7 9 (1/5) frand⟩


/-! Characterization of the Python max and list.index operations. -/

theorem foldlMax_spec :
    ∀ (xs : List ℚ) (x : ℚ),
      xs.foldl max x ∈ x :: xs ∧ x ≤ xs.foldl max x ∧ ∀ y ∈ xs, y ≤ xs.foldl max x := by
  intro xs
  induction xs with
  | nil => intro x; exact ⟨List.mem_cons_self x [], le_refl x, by intro y hy; cases hy⟩
  | cons y ys ih =>
    intro x
    obtain ⟨hmem, hle, hall⟩ := ih (max x y)
    have hfold : (y :: ys).foldl max x = ys.foldl max (max x y) := rfl
    refine ⟨?_, ?_, ?_⟩
    · rw [hfold]
      rcases List.mem_cons.mp hmem with h1 | h2
      · rw [h1]
        rcases max_choice x y with hx | hy2
        · rw [hx]; exact List.mem_cons_self x (y :: ys)
        · rw [hy2]; exact List.mem_cons_of_mem x (List.mem_cons_self y ys)
      · exact List.mem_cons_of_mem x (List.mem_cons_of_mem y h2)
    · rw [hfold]; exact le_trans (le_max_left x y) hle
    · intro z hz
      rw [hfold]
      rcases List.mem_cons.mp hz with h1 | h2
      · subst h1; exact le_trans (le_max_right x z) hle
      · exact hall z h2

theorem pyMax_spec (x : ℚ) (xs : List ℚ) :
    ∃ m, pyMax (x :: xs) = .ok m ∧ m ∈ x :: xs ∧ ∀ y ∈ x :: xs, y ≤ m := by
  obtain ⟨hmem, hle, hall⟩ := foldlMax_spec xs x
  refine ⟨xs.foldl max x, rfl, hmem, ?_⟩
  intro y hy
  rcases List.mem_cons.mp hy with h1 | h2
  · exact h1 ▸ hle
  · exact hall y h2

theorem pyIndex_spec (v : ℚ) :
    ∀ (l : List ℚ), v ∈ l →
      ∃ i, pyIndex v l = .ok i ∧ i < l.length ∧ l.getD i 0 = v
        ∧ ∀ j, j < i → l.getD j 0 ≠ v := by
  intro l
  induction l with
  | nil => intro h; cases h
  | cons x xs ih =>
    intro hmem
    by_cases hx : x = v
    · refine ⟨0, ?_, Nat.succ_pos _, hx, by intro j hj; cases hj⟩
      rw [pyIndex, if_pos hx]
    · have hvxs : v ∈ xs := by
        rcases List.mem_cons.mp hmem with h1 | h2
        · exact absurd h1.symm hx
        · exact h2
      obtain ⟨i, hok, hlt, hget, hmin⟩ := ih hvxs
      refine ⟨i + 1, ?_, Nat.succ_lt_succ hlt, hget, ?_⟩
      · rw [pyIndex, if_neg hx, hok]; rfl
      · intro j hj
        cases j with
        | zero => exact hx
        | succ k => exact hmin k (Nat.lt_of_succ_lt_succ hj)

/-- Evaluation of test_instance once the forward pass, max and index results
are known. -/
theorem test_instance_eval (act : ℚ → ℚ) (net : NeuralNetwork) (inst : List ℚ)
    (lastv : ℚ) (outs : List ℚ) (ls : List Layer) (m : ℚ) (idx : ℕ)
    (hlast : inst.getLast? = some lastv)
    (hfwd : forwardLayers act net.layers inst.dropLast = .ok (outs, ls))
    (hm : pyMax outs = .ok m)
    (hi : pyIndex m outs = .ok idx) :
    net.test_instance act inst =
      .ok (decide (pyInt lastv = (idx : ℤ)), { net with layers := ls }) := by
  simp only [NeuralNetwork.test_instance, hlast, hfwd, ok_bind, hm, hi]

/-- C5: for an instance of the correct shape (a successful forward pass with a
nonempty output vector), test_instance performs only the forward step: its
network effect is exactly the forward-updated layers, and it returns true
exactly when the index of the maximum output equals the instance's last
element cast to int. -/
theorem claim_C5_test_argmax (act : ℚ → ℚ) (net : NeuralNetwork) (inst : List ℚ)
    (lastv : ℚ) (outs : List ℚ) (ls : List Layer)
    (hlast : inst.getLast? = some lastv)
    (hfwd : forwardLayers act net.layers inst.dropLast = .ok (outs, ls))
    (hne : outs ≠ []) :
    ∃ m idx,
      pyMax outs = .ok m ∧ m ∈ outs ∧ (∀ x ∈ outs, x ≤ m)
      ∧ pyIndex m outs = .ok idx ∧ idx < outs.length ∧ outs.getD idx 0 = m
      ∧ net.test_instance act inst =
          .ok (decide (pyInt lastv = (idx : ℤ)), { net with layers := ls }) := by
  obtain ⟨o, os, houts⟩ : ∃ o os, outs = o :: os := by
    cases outs with
    | nil => exact absurd rfl hne
    | cons o os => exact ⟨o, os, rfl⟩
  subst houts
  obtain ⟨m, hm, hmem, hub⟩ := pyMax_spec o os
  obtain ⟨idx, hi, hlt, hget, _⟩ := pyIndex_spec m (o :: os) hmem
  exact ⟨m, idx, hm, hmem, hub, hi, hlt, hget,
    test_instance_eval act net inst lastv (o :: os) ls m idx hlast hfwd hm hi⟩

/-- C5 witness: the one-layer network net1 on instance [1, 0] has outputs
[1, 0], maximum 1 at index 0, true label 0, so test_instance returns true. -/
theorem claim_C5_test_argmax_witness :
    ∃ m idx,
      pyMax [1, 0] = .ok m ∧ m ∈ ([1, 0] : List ℚ) ∧ (∀ x ∈ ([1, 0] : List ℚ), x ≤ m)
      ∧ pyIndex m [1, 0] = .ok idx ∧ idx < ([1, 0] : List ℚ).length
      ∧ ([1, 0] : List ℚ).getD idx 0 = m
      ∧ net1.test_instance idAct [1, 0] =
          .ok (decide (pyInt 0 = (idx : ℤ)), { net1 with layers := net1After.layers }) :=
  claim_C5_test_argmax idAct net1 [1, 0] 0 [1, 0] net1After.layers rfl
    (by norm_num [forwardLayers, Layer.forward, forwardNeurons, Perceptron.compute_output,
      net1, net1After, pw, pwo, idAct, List.getLastD])
    (by simp)

/-- C9: when the output vector attains its maximum at several indices, the
index test_instance compares against the label is the smallest of them. -/
theorem claim_C9_argmax_lowest (act : ℚ → ℚ) (net : NeuralNetwork) (inst : List ℚ)
    (lastv : ℚ) (outs : List ℚ) (ls : List Layer)
    (hlast : inst.getLast? = some lastv)
    (hfwd : forwardLayers act net.layers inst.dropLast = .ok (outs, ls))
    (hne : outs ≠ []) :
    ∃ m idx,
      pyMax outs = .ok m
      ∧ pyIndex m outs = .ok idx
      ∧ outs.getD idx 0 = m
      ∧ (∀ j, j < outs.length → outs.getD j 0 = m → idx ≤ j)
      ∧ net.test_instance act inst =
          .ok (decide (pyInt lastv = (idx : ℤ)), { net with layers := ls }) := by
  obtain ⟨o, os, houts⟩ : ∃ o os, outs = o :: os := by
    cases outs with
    | nil => exact absurd rfl hne
    | cons o os => exact ⟨o, os, rfl⟩
  subst houts
  obtain ⟨m, hm, hmem, _⟩ := pyMax_spec o os
  obtain ⟨idx, hi, _, hget, hmin⟩ := pyIndex_spec m (o :: os) hmem
  refine ⟨m, idx, hm, hi, hget, ?_,
    test_instance_eval act net inst lastv (o :: os) ls m idx hlast hfwd hm hi⟩
  intro j _ hj
  by_contra hcon
  exact hmin j (Nat.lt_of_not_le (fun hle => hcon hle)) hj

/-- C9 witness: on netTie both outputs are 0, the maximum occurs at indices 0
and 1, and test_instance uses index 0 (so the comparison with label 1 is
false). -/
theorem claim_C9_argmax_lowest_witness :
    ∃ m idx,
      pyMax [0, 0] = .ok m
      ∧ pyIndex m [0, 0] = .ok idx
      ∧ ([0, 0] : List ℚ).getD idx 0 = m
      ∧ (∀ j, j < ([0, 0] : List ℚ).length → ([0, 0] : List ℚ).getD j 0 = m → idx ≤ j)
      ∧ netTie.test_instance idAct [5, 1] =
          .ok (decide (pyInt 1 = (idx : ℤ)), { netTie with layers := netTieLayers }) :=
  claim_C9_argmax_lowest idAct netTie [5, 1] 1 [0, 0] netTieLayers rfl
    (by norm_num [forwardLayers, Layer.forward, forwardNeurons, Perceptron.compute_output,
      netTie, netTieLayers, pw, pwo, idAct, List.getLastD])
    (by simp)

/-! One-hot label construction. -/

theorem mkLabels_ok (n : ℕ) (lab : ℤ) (h0 : 0 ≤ lab) (h1 : lab.toNat < n) :
    mkLabels n lab = .ok ((List.replicate n (0 : ℚ)).set lab.toNat 1) := by
  rw [mkLabels, pySet]
  simp only [List.length_replicate]
  rw [if_neg (not_lt.mpr h0)]
  rw [if_pos ⟨h0, by omega⟩]

theorem set_replicate_getD :
    ∀ (n k j : ℕ), k < n → j < n →
      ((List.replicate n (0 : ℚ)).set k 1).getD j 0 = if j = k then 1 else 0 := by
  intro n
  induction n with
  | zero => intro k j hk _; cases hk
  | succ m ih =>
    intro k j hk hj
    cases k with
    | zero =>
      cases j with
      | zero => rfl
      | succ j2 =>
        simp only [List.replicate, List.set, List.getD_cons_succ, replicate_getD]
        rw [if_neg (Nat.succ_ne_zero j2)]
    | succ k2 =>
      cases j with
      | zero =>
        simp only [List.replicate, List.set, List.getD_cons_zero]
        rw [if_neg (Ne.symm (Nat.succ_ne_zero k2))]
      | succ j2 =>
        have hres := ih k2 j2 (Nat.lt_of_succ_lt_succ hk) (Nat.lt_of_succ_lt_succ hj)
        simp only [List.replicate, List.set, List.getD_cons_succ, hres,
          Nat.succ_eq_add_one]
        by_cases hjk : j2 = k2
        · rw [if_pos hjk, if_pos (by omega)]
        · rw [if_neg hjk, if_neg (by omega)]

theorem seed_getD :
    ∀ (L outs : List ℚ) (j : ℕ), j < L.length → j < outs.length →
      (seedDownstream L outs).getD j 0 = L.getD j 0 - outs.getD j 0 := by
  intro L
  induction L with
  | nil => intro outs j hjL _; cases hjL
  | cons x xs ih =>
    intro outs j hjL hjo
    cases outs with
    | nil => cases hjo
    | cons y ys =>
      cases j with
      | zero => rfl
      | succ k =>
        simp only [seedDownstream, List.zipWith_cons_cons, List.getD_cons_succ]
        exact ih ys k (Nat.lt_of_succ_lt_succ hjL) (Nat.lt_of_succ_lt_succ hjo)

/-- C4: train_instance turns the instance's last element (cast to int, in
range) into a one-hot vector of length label_count, and its whole effect is
the forward pass followed by the backward-update phase run on the seed vector
target minus output, formed elementwise from that one-hot vector and the
final layer's outputs. -/
theorem claim_C4_one_hot_seed (act actDeriv : ℚ → ℚ) (net : NeuralNetwork)
    (inst : List ℚ) (lastv : ℚ)
    (hlast : inst.getLast? = some lastv)
    (h0 : 0 ≤ pyInt lastv)
    (h1 : (pyInt lastv).toNat < net.label_count) :
    ∃ L, mkLabels net.label_count (pyInt lastv) = .ok L
      ∧ L.length = net.label_count
      ∧ (∀ j, j < net.label_count →
          L.getD j 0 = if j = (pyInt lastv).toNat then 1 else 0)
      ∧ (∀ outs j, (seedDownstream L outs).getD j 0
            = if j < min L.length outs.length then L.getD j 0 - outs.getD j 0 else 0)
      ∧ net.train_instance act actDeriv inst =
          (forwardLayers act net.layers inst.dropLast) >>= (fun p =>
            NeuralNetwork.back_update actDeriv { net with layers := p.2 }
              (seedDownstream L p.1)) := by
  refine ⟨(List.replicate net.label_count (0 : ℚ)).set (pyInt lastv).toNat 1,
    mkLabels_ok net.label_count (pyInt lastv) h0 h1, ?_, ?_, ?_, ?_⟩
  · simp
  · intro j hj
    exact set_replicate_getD net.label_count (pyInt lastv).toNat j h1 hj
  · intro outs j
    by_cases hj : j < min ((List.replicate net.label_count (0:ℚ)).set (pyInt lastv).toNat 1).length outs.length
    · rw [if_pos hj]
      exact seed_getD _ outs j (by omega) (by omega)
    · rw [if_neg hj]
      have hlen : ((seedDownstream ((List.replicate net.label_count (0:ℚ)).set (pyInt lastv).toNat 1) outs)).length ≤ j := by
        rw [seedDownstream, List.length_zipWith]
        omega
      exact List.getD_eq_default _ _ hlen
  · rw [NeuralNetwork.train_instance]
    simp only [hlast]
    rw [mkLabels_ok net.label_count (pyInt lastv) h0 h1, ok_bind]

/-- C4 witness: net1 on the instance [1, 0] with label 0 and two label
slots. -/
theorem claim_C4_one_hot_seed_witness :
    ∃ L, mkLabels net1.label_count (pyInt 0) = .ok L
      ∧ L.length = net1.label_count
      ∧ (∀ j, j < net1.label_count → L.getD j 0 = if j = (pyInt 0).toNat then 1 else 0)
      ∧ (∀ outs j, (seedDownstream L outs).getD j 0
            = if j < min L.length outs.length then L.getD j 0 - outs.getD j 0 else 0)
      ∧ net1.train_instance idAct oneDeriv [1, 0] =
          (forwardLayers idAct net1.layers [1, 0].dropLast) >>= (fun p =>
            NeuralNetwork.back_update oneDeriv { net1 with layers := p.2 }
              (seedDownstream L p.1)) :=
  claim_C4_one_hot_seed idAct oneDeriv net1 [1, 0] 0 rfl (by norm_num [pyInt])
    (by norm_num [pyInt, net1])

/-! The training loop as an iterate of single dataset passes. -/

theorem trainLoop_bind (act actDeriv : ℚ → ℚ) (insts : List (List ℚ)) :
    ∀ (n : ℕ) (r : PyM NeuralNetwork),
      (r >>= fun m => trainLoop act actDeriv insts n m)
        = (fun s => s >>= trainPass act actDeriv insts)^[n] r := by
  intro n
  induction n with
  | zero => intro r; exact pym_bind_ok r
  | succ k ih =>
    intro r
    have h1 : (r >>= fun m => trainLoop act actDeriv insts (k + 1) m)
        = ((r >>= trainPass act actDeriv insts) >>= fun m => trainLoop act actDeriv insts k m) := by
      rw [pym_bind_assoc]
      exact rfl
    rw [h1, ih, Function.iterate_succ_apply]

/-- C8: with iteration = 0, train performs no per-instance step and returns
the network (hence every weight) unchanged; in general train is exactly the
configured number of iterations of a full in-order pass of train_instance
over the dataset. -/
theorem claim_C8_train_iterations (act actDeriv : ℚ → ℚ) (net : NeuralNetwork)
    (insts : List (List ℚ)) :
    (net.iteration = 0 → net.train act actDeriv insts = .ok net)
    ∧ net.train act actDeriv insts
        = (fun s => s >>= trainPass act actDeriv insts)^[net.iteration] (.ok net) := by
  constructor
  · intro h
    rw [NeuralNetwork.train, h]
    exact rfl
  · rw [NeuralNetwork.train]
    have h2 := trainLoop_bind act actDeriv insts net.iteration (.ok net)
    exact h2

/-- C8 witness: net1 is configured with iteration = 0, so training on a
dataset returns it unchanged. -/
theorem claim_C8_train_iterations_witness :
    net1.train idAct oneDeriv [[1, 0]] = .ok net1 :=
  (claim_C8_train_iterations idAct oneDeriv net1 [[1, 0]]).1 rfl

/-! Cache-only effects of the forward pass: forward-pass functions change
nothing outside the inputs and output caches. -/

@[simp] theorem pym_map_ok {α β : Type} (f : α → β) (a : α) :
    Except.map f (Except.ok a : PyM α) = .ok (f a) := rfl

@[simp] theorem pym_map_error {α β : Type} (f : α → β) (e : PyErr) :
    Except.map f (Except.error e : PyM α) = .error e := rfl

theorem compute_output_clear {act : ℚ → ℚ} {p : Perceptron} {ins : List ℚ}
    {o : ℚ} {pNew : Perceptron}
    (h : p.compute_output act ins = .ok (o, pNew)) :
    pNew.clearCache = p.clearCache := by
  rw [Perceptron.compute_output] at h
  by_cases hc : p.weights.length = ins.length + 1
  · rw [if_pos hc] at h
    injection h with h2
    injection h2 with _ h3
    rw [← h3]
    rfl
  · rw [if_neg hc] at h
    cases h

theorem forwardNeurons_clear {act : ℚ → ℚ} {ins : List ℚ} :
    ∀ {ps : List Perceptron} {os : List ℚ} {psNew : List Perceptron},
      forwardNeurons act ins ps = .ok (os, psNew) →
      psNew.map Perceptron.clearCache = ps.map Perceptron.clearCache := by
  intro ps
  induction ps with
  | nil =>
    intro os psNew h
    injection h with h2
    injection h2 with _ h3
    rw [← h3]
  | cons p ps ih =>
    intro os psNew h
    rw [forwardNeurons] at h
    cases hc : p.compute_output act ins with
    | error e => rw [hc] at h; cases h
    | ok pr =>
      obtain ⟨o, pN⟩ := pr
      simp only [hc, ok_bind] at h
      cases hr : forwardNeurons act ins ps with
      | error e => simp only [hr, error_bind] at h; cases h
      | ok pr2 =>
        obtain ⟨os2, psN⟩ := pr2
        simp only [hr, ok_bind] at h
        injection h with h2
        injection h2 with _ h3
        rw [← h3, List.map_cons, List.map_cons, compute_output_clear hc, ih hr]

theorem forward_clear {act : ℚ → ℚ} {l : Layer} {ins : List ℚ}
    {os : List ℚ} {lNew : Layer}
    (h : l.forward act ins = .ok (os, lNew)) :
    lNew.clearCache = l.clearCache := by
  rw [Layer.forward] at h
  cases hc : forwardNeurons act ins l.neurons with
  | error e => rw [hc] at h; cases h
  | ok pr =>
    obtain ⟨os2, ns⟩ := pr
    simp only [hc, ok_bind] at h
    injection h with h2
    injection h2 with _ h3
    rw [← h3, Layer.clearCache, Layer.clearCache]
    simp only [forwardNeurons_clear hc]

theorem forwardLayers_clear {act : ℚ → ℚ} :
    ∀ {ls : List Layer} {ins os : List ℚ} {lsNew : List Layer},
      forwardLayers act ls ins = .ok (os, lsNew) →
      lsNew.map Layer.clearCache = ls.map Layer.clearCache := by
  intro ls
  induction ls with
  | nil =>
    intro ins os lsNew h
    injection h with h2
    injection h2 with _ h3
    rw [← h3]
  | cons l ls ih =>
    intro ins os lsNew h
    rw [forwardLayers] at h
    cases hc : l.forward act ins with
    | error e => rw [hc] at h; cases h
    | ok pr =>
      obtain ⟨os1, lN⟩ := pr
      simp only [hc, ok_bind] at h
      cases hr : forwardLayers act ls os1 with
      | error e => simp only [hr, error_bind] at h; cases h
      | ok pr2 =>
        obtain ⟨os2, lsN⟩ := pr2
        simp only [hr, ok_bind] at h
        injection h with h2
        injection h2 with _ h3
        rw [← h3, List.map_cons, List.map_cons, forward_clear hc, ih hr]

theorem test_instance_clear {act : ℚ → ℚ} {net : NeuralNetwork} {inst : List ℚ}
    {b : Bool} {netNew : NeuralNetwork}
    (h : net.test_instance act inst = .ok (b, netNew)) :
    netNew.clearCache = net.clearCache := by
  rw [NeuralNetwork.test_instance] at h
  cases hlast : inst.getLast? with
  | none => rw [hlast] at h; cases h
  | some lastv =>
    simp only [hlast] at h
    cases hf : forwardLayers act net.layers inst.dropLast with
    | error e => simp only [hf, error_bind] at h; cases h
    | ok pr =>
      obtain ⟨outs, ls⟩ := pr
      simp only [hf, ok_bind] at h
      cases hm : pyMax outs with
      | error e => simp only [hm, error_bind] at h; cases h
      | ok m =>
        simp only [hm, ok_bind] at h
        cases hi : pyIndex m outs with
        | error e => simp only [hi, error_bind] at h; cases h
        | ok idx =>
          simp only [hi, ok_bind] at h
          injection h with h2
          injection h2 with _ h3
          rw [← h3, NeuralNetwork.clearCache, NeuralNetwork.clearCache]
          simp only [forwardLayers_clear hf]

theorem testFold_clear {act : ℚ → ℚ} :
    ∀ {insts : List (List ℚ)} {pos pos2 : ℕ} {net netNew : NeuralNetwork},
      testFold act insts pos net = .ok (pos2, netNew) →
      netNew.clearCache = net.clearCache := by
  intro insts
  induction insts with
  | nil =>
    intro pos pos2 net netNew h
    injection h with h2
    injection h2 with _ h3
    rw [← h3]
  | cons i is ih =>
    intro pos pos2 net netNew h
    rw [testFold] at h
    cases hc : net.test_instance act i with
    | error e => rw [hc] at h; cases h
    | ok pr =>
      obtain ⟨b, m⟩ := pr
      simp only [hc, ok_bind] at h
      rw [ih h, test_instance_clear hc]

theorem test_clear {act : ℚ → ℚ} {net : NeuralNetwork} {insts : List (List ℚ)}
    {q : ℚ} {netNew : NeuralNetwork}
    (h : net.test act insts = .ok (q, netNew)) :
    netNew.clearCache = net.clearCache := by
  rw [NeuralNetwork.test] at h
  cases hc : testFold act insts 0 net with
  | error e => rw [hc] at h; cases h
  | ok pr =>
    obtain ⟨pos, m⟩ := pr
    simp only [hc, ok_bind] at h
    by_cases hlen : insts.length = 0
    · simp only [if_pos hlen] at h; cases h
    · simp only [if_neg hlen] at h
      injection h with h2
      injection h2 with _ h3
      rw [← h3, testFold_clear hc]

theorem weightsOf_of_clearCache {netA netB : NeuralNetwork}
    (h : netA.clearCache = netB.clearCache) : netA.weightsOf = netB.weightsOf := by
  have h2 : netA.clearCache.weightsOf = netB.clearCache.weightsOf := by rw [h]
  have hw : ∀ net : NeuralNetwork, net.clearCache.weightsOf = net.weightsOf := by
    intro net
    simp [NeuralNetwork.clearCache, NeuralNetwork.weightsOf, Layer.clearCache,
      Perceptron.clearCache, List.map_map, Function.comp]
  rw [hw netA, hw netB] at h2
  exact h2

/-! Concrete evaluations of test_instance on the witness network. -/

theorem test_instance_net1 : net1.test_instance idAct [1, 0] = .ok (true, net1After) := by
  norm_num [NeuralNetwork.test_instance, forwardLayers, Layer.forward, forwardNeurons,
    Perceptron.compute_output, pyMax, pyIndex, pyInt, net1, net1After, pw, pwo, idAct,
    List.getLastD, List.getLast?]

theorem test_instance_net1b : net1.test_instance idAct [1, 1] = .ok (false, net1After) := by
  norm_num [NeuralNetwork.test_instance, forwardLayers, Layer.forward, forwardNeurons,
    Perceptron.compute_output, pyMax, pyIndex, pyInt, net1, net1After, pw, pwo, idAct,
    List.getLastD, List.getLast?]

/-- C10 counterexample: test_instance on net1 leaves every weight vector
unchanged, but it changes more than the layers' cached last-inputs fields:
the neurons' cached outputs change as well (from none to the computed
values), so the claim's parenthetical is too narrow. -/
theorem claim_C10_cex :
    net1.test_instance idAct [1, 0] = .ok (true, net1After)
    ∧ net1After.weightsOf = net1.weightsOf
    ∧ (net1After.layers.map (fun l => l.neurons.map Perceptron.output))
        ≠ (net1.layers.map (fun l => l.neurons.map Perceptron.output)) :=
  ⟨test_instance_net1, by decide, by decide⟩

/-- C10 (amended): test_instance and test never modify any neuron's weights;
everything outside the transient caches (each layer's stored last inputs and
each neuron's cached output) is unchanged, as expressed by equality of the
cache-erased networks. -/
theorem claim_C10_test_frame (act : ℚ → ℚ) (net : NeuralNetwork) (insts : List (List ℚ)) :
    (∀ inst b netNew, net.test_instance act inst = .ok (b, netNew) →
       netNew.clearCache = net.clearCache ∧ netNew.weightsOf = net.weightsOf)
    ∧ (∀ q netNew, net.test act insts = .ok (q, netNew) →
       netNew.clearCache = net.clearCache ∧ netNew.weightsOf = net.weightsOf) := by
  constructor
  · intro inst b netNew h
    have hcc := test_instance_clear h
    exact ⟨hcc, weightsOf_of_clearCache hcc⟩
  · intro q netNew h
    have hcc := test_clear h
    exact ⟨hcc, weightsOf_of_clearCache hcc⟩

/-- C10 witness: the concrete run of test_instance on net1 preserves the
cache-erased network and all weights. -/
theorem claim_C10_test_frame_witness :
    net1After.clearCache = net1.clearCache ∧ net1After.weightsOf = net1.weightsOf :=
  (claim_C10_test_frame idAct net1 []).1 [1, 0] true net1After test_instance_net1

/-! Forward-pass results depend only on the cache-erased state: networks that
agree outside their transient caches produce the same outputs, errors and, up
to caches, the same successor states. -/

theorem map_eq_cases {α β : Type} {f : α → β} {r1 r2 : PyM α}
    (h : Except.map f r1 = Except.map f r2) :
    (∃ e, r1 = .error e ∧ r2 = .error e)
    ∨ (∃ a1 a2, r1 = .ok a1 ∧ r2 = .ok a2 ∧ f a1 = f a2) := by
  cases r1 with
  | error e1 =>
    cases r2 with
    | error e2 =>
      simp only [pym_map_error] at h
      injection h with h2
      exact Or.inl ⟨e1, rfl, by rw [h2]⟩
    | ok a2 =>
      simp only [pym_map_error, pym_map_ok] at h
      cases h
  | ok a1 =>
    cases r2 with
    | error e2 =>
      simp only [pym_map_error, pym_map_ok] at h
      cases h
    | ok a2 =>
      simp only [pym_map_ok] at h
      injection h with h2
      exact Or.inr ⟨a1, a2, rfl, rfl, h2⟩

theorem clearCache_fields {p1 p2 : Perceptron} (h : p1.clearCache = p2.clearCache) :
    p1.weights = p2.weights ∧ p1.lr = p2.lr ∧ p1.delta = p2.delta := by
  have h2 := h
  simp only [Perceptron.clearCache, Perceptron.mk.injEq, true_and, and_true] at h2
  exact h2

theorem clearCacheL_fields {l1 l2 : Layer} (h : l1.clearCache = l2.clearCache) :
    l1.dimension = l2.dimension
      ∧ l1.neurons.map Perceptron.clearCache = l2.neurons.map Perceptron.clearCache := by
  have h2 := h
  simp only [Layer.clearCache, Layer.mk.injEq, and_true] at h2
  exact h2

theorem clearCacheN_fields {n1 n2 : NeuralNetwork} (h : n1.clearCache = n2.clearCache) :
    n1.iteration = n2.iteration ∧ n1.layer_num = n2.layer_num
      ∧ n1.label_count = n2.label_count
      ∧ n1.layers.map Layer.clearCache = n2.layers.map Layer.clearCache := by
  have h2 := h
  simp only [NeuralNetwork.clearCache, NeuralNetwork.mk.injEq] at h2
  exact h2

theorem compute_output_congr (act : ℚ → ℚ) {p1 p2 : Perceptron} (ins : List ℚ)
    (h : p1.clearCache = p2.clearCache) :
    Except.map (fun r => (r.1, r.2.clearCache)) (p1.compute_output act ins)
      = Except.map (fun r => (r.1, r.2.clearCache)) (p2.compute_output act ins) := by
  obtain ⟨hw, hl, hd⟩ := clearCache_fields h
  simp only [Perceptron.compute_output, Perceptron.clearCache]
  rw [hw, hl, hd]

theorem forwardNeurons_congr (act : ℚ → ℚ) (ins : List ℚ) :
    ∀ {ns1 ns2 : List Perceptron},
      ns1.map Perceptron.clearCache = ns2.map Perceptron.clearCache →
      Except.map (fun r => (r.1, r.2.map Perceptron.clearCache)) (forwardNeurons act ins ns1)
        = Except.map (fun r => (r.1, r.2.map Perceptron.clearCache)) (forwardNeurons act ins ns2) := by
  intro ns1
  induction ns1 with
  | nil =>
    intro ns2 h
    cases ns2 with
    | nil => rfl
    | cons p2 ps2 => cases h
  | cons p1 ps1 ih =>
    intro ns2 h
    cases ns2 with
    | nil => cases h
    | cons p2 ps2 =>
      simp only [List.map_cons, List.cons.injEq] at h
      obtain ⟨hhead, htail⟩ := h
      simp only [forwardNeurons]
      rcases map_eq_cases (compute_output_congr act ins hhead) with
        ⟨e, he1, he2⟩ | ⟨⟨o1, q1⟩, ⟨o2, q2⟩, ha1, ha2, hfa⟩
      · simp only [he1, he2, error_bind, pym_map_error]
      · simp only [Prod.mk.injEq] at hfa
        obtain ⟨ho, hq⟩ := hfa
        subst ho
        simp only [ha1, ha2, ok_bind]
        rcases map_eq_cases (ih htail) with
          ⟨e, he1, he2⟩ | ⟨⟨os1, psN1⟩, ⟨os2, psN2⟩, hb1, hb2, hfb⟩
        · simp only [he1, he2, error_bind, pym_map_error]
        · simp only [Prod.mk.injEq] at hfb
          obtain ⟨hos, hps⟩ := hfb
          subst hos
          simp only [hb1, hb2, ok_bind, pym_map_ok, Prod.mk.injEq, List.map_cons,
            true_and, hq, hps, and_self]

theorem forward_congr (act : ℚ → ℚ) {l1 l2 : Layer} (ins : List ℚ)
    (h : l1.clearCache = l2.clearCache) :
    Except.map (fun r => (r.1, Layer.clearCache r.2)) (l1.forward act ins)
      = Except.map (fun r => (r.1, Layer.clearCache r.2)) (l2.forward act ins) := by
  obtain ⟨hdim, hn⟩ := clearCacheL_fields h
  simp only [Layer.forward]
  rcases map_eq_cases (forwardNeurons_congr act ins hn) with
    ⟨e, he1, he2⟩ | ⟨⟨os1, ns1⟩, ⟨os2, ns2⟩, ha1, ha2, hfa⟩
  · simp only [he1, he2, error_bind, pym_map_error]
  · simp only [Prod.mk.injEq] at hfa
    obtain ⟨hos, hns⟩ := hfa
    subst hos
    simp only [ha1, ha2, ok_bind, pym_map_ok, Prod.mk.injEq, Layer.clearCache,
      true_and, hdim, hns, and_self]

theorem forwardLayers_congr (act : ℚ → ℚ) :
    ∀ {ls1 ls2 : List Layer} (ins : List ℚ),
      ls1.map Layer.clearCache = ls2.map Layer.clearCache →
      Except.map (fun r => (r.1, r.2.map Layer.clearCache)) (forwardLayers act ls1 ins)
        = Except.map (fun r => (r.1, r.2.map Layer.clearCache)) (forwardLayers act ls2 ins) := by
  intro ls1
  induction ls1 with
  | nil =>
    intro ls2 ins h
    cases ls2 with
    | nil => rfl
    | cons l2 rest2 => cases h
  | cons l1 rest1 ih =>
    intro ls2 ins h
    cases ls2 with
    | nil => cases h
    | cons l2 rest2 =>
      simp only [List.map_cons, List.cons.injEq] at h
      obtain ⟨hhead, htail⟩ := h
      simp only [forwardLayers]
      rcases map_eq_cases (forward_congr act ins hhead) with
        ⟨e, he1, he2⟩ | ⟨⟨os1, lN1⟩, ⟨os2, lN2⟩, ha1, ha2, hfa⟩
      · simp only [he1, he2, error_bind, pym_map_error]
      · simp only [Prod.mk.injEq] at hfa
        obtain ⟨hos, hl⟩ := hfa
        subst hos
        simp only [ha1, ha2, ok_bind]
        rcases map_eq_cases (ih os1 htail) with
          ⟨e, he1, he2⟩ | ⟨⟨fs1, lsN1⟩, ⟨fs2, lsN2⟩, hb1, hb2, hfb⟩
        · simp only [he1, he2, error_bind, pym_map_error]
        · simp only [Prod.mk.injEq] at hfb
          obtain ⟨hfs, hls⟩ := hfb
          subst hfs
          simp only [hb1, hb2, ok_bind, pym_map_ok, Prod.mk.injEq, List.map_cons,
            true_and, hl, hls, and_self]

theorem test_instance_congr (act : ℚ → ℚ) {n1 n2 : NeuralNetwork} (inst : List ℚ)
    (h : n1.clearCache = n2.clearCache) :
    Except.map (fun r => (r.1, NeuralNetwork.clearCache r.2)) (n1.test_instance act inst)
      = Except.map (fun r => (r.1, NeuralNetwork.clearCache r.2)) (n2.test_instance act inst) := by
  obtain ⟨hit, hln, hlc, hls⟩ := clearCacheN_fields h
  simp only [NeuralNetwork.test_instance]
  cases hlast : inst.getLast? with
  | none => rfl
  | some lastv =>
    rcases map_eq_cases (forwardLayers_congr act inst.dropLast hls) with
      ⟨e, he1, he2⟩ | ⟨⟨outs1, ls1⟩, ⟨outs2, ls2⟩, ha1, ha2, hfa⟩
    · simp only [he1, he2, error_bind, pym_map_error]
    · simp only [Prod.mk.injEq] at hfa
      obtain ⟨hos, hlsm⟩ := hfa
      subst hos
      simp only [ha1, ha2, ok_bind]
      cases hm : pyMax outs1 with
      | error e => simp only [hm, error_bind, pym_map_error]
      | ok m =>
        simp only [hm, ok_bind]
        cases hi : pyIndex m outs1 with
        | error e => simp only [hi, error_bind, pym_map_error]
        | ok idx =>
          simp only [hi, ok_bind, pym_map_ok, Prod.mk.injEq, NeuralNetwork.clearCache,
            true_and, hit, hln, hlc, hlsm, and_self]

theorem instOk_eval {act : ℚ → ℚ} {net : NeuralNetwork} {i : List ℚ} {b : Bool}
    {m : NeuralNetwork} (h : net.test_instance act i = .ok (b, m)) :
    instOk act net i = b := by
  rw [instOk, h]

theorem testFold_spec (act : ℚ → ℚ) (net0 : NeuralNetwork) :
    ∀ (insts : List (List ℚ)) (pos : ℕ) (net : NeuralNetwork),
      net.clearCache = net0.clearCache →
      (∀ i ∈ insts, ∃ r, net0.test_instance act i = .ok r) →
      ∃ netNew, testFold act insts pos net = .ok (pos + countTrue act net0 insts, netNew)
        ∧ netNew.clearCache = net0.clearCache := by
  intro insts
  induction insts with
  | nil =>
    intro pos net hcc _
    exact ⟨net, by simp [testFold, countTrue], hcc⟩
  | cons i is ih =>
    intro pos net hcc hsucc
    obtain ⟨r0, hok0⟩ := hsucc i (List.mem_cons_self i is)
    obtain ⟨b0, m0⟩ := r0
    rcases map_eq_cases (test_instance_congr act i hcc) with
      ⟨e, he1, he2⟩ | ⟨⟨b, m⟩, ⟨b2, m2⟩, hb1, hb2, hfb⟩
    · rw [hok0] at he2; cases he2
    · rw [hok0] at hb2
      injection hb2 with hb2p
      injection hb2p with hbb hmm2
      subst hbb
      simp only [Prod.mk.injEq] at hfb
      obtain ⟨hbb2, _⟩ := hfb
      subst hbb2
      have hmcc : m.clearCache = net0.clearCache := by
        rw [test_instance_clear hb1, hcc]
      obtain ⟨netNew, hfold, hccN⟩ :=
        ih (if b then pos + 1 else pos) m hmcc
          (fun j hj => hsucc j (List.mem_cons_of_mem i hj))
      refine ⟨netNew, ?_, hccN⟩
      rw [testFold]
      simp only [hb1, ok_bind]
      rw [hfold]
      have hinst : instOk act net0 i = b := instOk_eval hok0
      have hcount : countTrue act net0 (i :: is)
          = (if b then 1 else 0) + countTrue act net0 is := by
        simp only [countTrue, List.filter_cons, hinst]
        cases b with
        | false => simp
        | true => simp [List.length_cons]; omega
      rw [hcount]
      cases b with
      | false => simp
      | true => simp; omega

/-- C6: when every instance of the dataset evaluates without error, test
returns exactly P / N where P is the number of instances on which
test_instance is true and N the dataset size; on the empty dataset the
division raises ZeroDivisionError. -/
theorem claim_C6_test_fraction (act : ℚ → ℚ) (net : NeuralNetwork) (insts : List (List ℚ))
    (hsucc : ∀ i ∈ insts, ∃ r, net.test_instance act i = .ok r) :
    (insts = [] → net.test act insts = .error .zeroDivisionError)
    ∧ (insts ≠ [] → ∃ netNew, net.test act insts
        = .ok ((countTrue act net insts : ℚ) / (insts.length : ℚ), netNew)) := by
  constructor
  · intro h
    subst h
    rfl
  · intro hne
    obtain ⟨netNew, hfold, _⟩ := testFold_spec act net insts 0 net rfl hsucc
    refine ⟨netNew, ?_⟩
    rw [NeuralNetwork.test]
    simp only [hfold, ok_bind, Nat.zero_add]
    rw [if_neg (by simpa using hne)]

/-- C6 witness: net1 on a two-instance dataset, classifying the first
correctly and the second incorrectly, yields accuracy 1/2. -/
theorem claim_C6_test_fraction_witness :
    ∃ netNew, net1.test idAct [[1, 0], [1, 1]]
      = .ok ((countTrue idAct net1 [[1, 0], [1, 1]] : ℚ)
          / (([[1, 0], [1, 1]] : List (List ℚ)).length : ℚ), netNew) :=
  (claim_C6_test_fraction idAct net1 [[1, 0], [1, 1]] (by
      intro i hi
      rcases List.mem_cons.mp hi with h | h
      · exact ⟨(true, net1After), by rw [h]; exact test_instance_net1⟩
      · rcases List.mem_cons.mp h with h2 | h2
        · exact ⟨(false, net1After), by rw [h2]; exact test_instance_net1b⟩
        · cases h2)).2 (by simp)
